import Mathlib

/-!
Shallow embedding of Angband's random-number and stochastic-calculation
engine (`src/z-rand.h`) and of the character history log
(`src/player-history.c`), together with theorems settling the frozen
claims about the natural-language specification.

The repository ships `z-rand.h` (constants, the `random_value` struct, the
`aspect` enum and the `randint0`/`randint1`/`rand_spread`/`one_in_` macros)
but not `z-rand.c`; bodies of the functions that `z-rand.h` only declares
are therefore modelled from the specification, and each such definition is
marked `Modelled from the spec:` in its doc comment.  `player-history.c`
is present and embedded directly.

Machine integers are embedded as `Int`/`Nat` with explicit `% 2 ^ 32`
where 32-bit wrap-around matters.  The global generator state of the C
code becomes an explicit state value threaded through every sampling
function: a function that may draw returns `value × state`.
-/

/-! ## Generator state (`z-rand.h` globals) -/

/-- `RAND_DEG` from `z-rand.h`: the number of 32-bit integers worth of
seed state of the complex generator. -/
def RAND_DEG : Nat := 32

/-- The state of the complex ("WELL"-style) generator: the C globals
`state_i`, `STATE[RAND_DEG]`, `z0`, `z1`, `z2` declared in `z-rand.h`.
`STATE` is embedded as a function read and written at indices
`0 .. RAND_DEG - 1`. -/
structure WellState where
  state_i : Nat
  STATE : Nat → Nat
  z0 : Nat
  z1 : Nat
  z2 : Nat

/-- The whole generator state: the C globals `Rand_quick` (the mode flag),
`Rand_value` (the quick generator's one-word state) and the complex
generator state, all declared in `z-rand.h`. -/
structure GenState where
  Rand_quick : Bool
  Rand_value : Nat
  well : WellState

/-- The complex generator's part of the state: `state_i`, `STATE[0..31]`,
`z0`, `z1`, `z2`. -/
def complexPart (s : GenState) : WellState := s.well

/-- Modelled from the spec: `z-rand.c` is absent, so the Quick Generator's
single-word recurrence (spec §4.2, "a shift/xor-style transform producing
one new raw word per call") is modelled as a 32-bit xorshift step. -/
def quickNext (v : Nat) : Nat :=
  let a := (v ^^^ (v <<< 13)) % 2 ^ 32
  let b := a ^^^ (a >>> 17)
  (b ^^^ (b <<< 5)) % 2 ^ 32

/-- Modelled from the spec: `z-rand.c` is absent, so the Complex
Generator's step (spec §4.3) is modelled after its words: combine the word
at the rotating index with several other state words and a feedback term
to produce the new state word at that index, advance the index modulo
`RAND_DEG`, and temper the raw output with the auxiliary words, which
rotate on each draw. -/
def wellStep (w : WellState) : Nat × WellState :=
  let j := w.state_i % RAND_DEG
  let fresh := (w.STATE j ^^^ w.STATE ((j + 3) % RAND_DEG) ^^^
      w.STATE ((j + 24) % RAND_DEG) ^^^ ((w.z2 * 69069 + 1) % 2 ^ 32)) % 2 ^ 32
  let out := (fresh ^^^ (fresh >>> 11) ^^^ w.z1) % 2 ^ 32
  (out, ⟨(j + 1) % RAND_DEG, fun k => if k = j then fresh else w.STATE k,
         w.z1, w.z2, out⟩)

/-- Modelled from the spec: `z-rand.c` is absent, so `Rand_div` (the
spec's `draw_below`, §4.4) is modelled by its contract: for `m ≥ 1` it
produces an integer in `[0, m)` from the raw output of whichever
generator `Rand_quick` selects, advancing only that generator's state
(the spec's bias-free rescaling of the raw word into the range). -/
def Rand_div (m : Int) (s : GenState) : Int × GenState :=
  if m ≤ 1 then (0, s)
  else if s.Rand_quick then
    let v := quickNext s.Rand_value
    ((v : Int) % m, { s with Rand_value := v })
  else
    let r := wellStep s.well
    ((r.1 : Int) % m, { s with well := r.2 })

/-- The macro `randint0(M)` from `z-rand.h`: `(s32b) Rand_div(M)`. -/
def randint0 (m : Int) (s : GenState) : Int × GenState := Rand_div m s

/-- The macro `randint1(M)` from `z-rand.h`: `(s32b) Rand_div(M) + 1`. -/
def randint1 (m : Int) (s : GenState) : Int × GenState :=
  let r := Rand_div m s
  (r.1 + 1, r.2)

/-- The macro `rand_spread(A, D)` from `z-rand.h`:
`(A) + (randint0(1 + (D) + (D))) - (D)`. -/
def rand_spread (a d : Int) (s : GenState) : Int × GenState :=
  let r := randint0 (1 + d + d) s
  (a + r.1 - d, r.2)

/-- Modelled from the spec: `rand_range` is declared in `z-rand.h` but its
body is in the absent `z-rand.c`; the spec (§4.4) gives
`rand_range(A, B) = A + draw_below(B - A + 1)`. -/
def rand_range (a b : Int) (s : GenState) : Int × GenState :=
  let r := Rand_div (b - a + 1) s
  (a + r.1, r.2)

/-! ## Dice and bonus calculus -/

/-- `MAX_RAND_DEPTH` from `z-rand.h`: the assumed maximum dungeon level. -/
def MAX_RAND_DEPTH : Int := 128

/-- The `aspect` enum from `z-rand.h`. -/
inductive aspect where
  | MINIMISE
  | AVERAGE
  | MAXIMISE
  | EXTREMIFY
  | RANDOMISE
deriving DecidableEq

open aspect

/-- The `random_value` struct from `z-rand.h`: the result of the roll is
`base + dice d sides + BONUS`, where `m_bonus` feeds the bonus calculus. -/
structure random_value where
  base : Int
  dice : Int
  sides : Int
  m_bonus : Int
deriving DecidableEq

/-- Modelled from the spec: `damroll` is declared in `z-rand.h` but its
body is in the absent `z-rand.c`; the spec (§4.6 `roll`) sums `n`
independent uniform draws over `[1, s]`.  This helper rolls a `Nat`
number of dice. -/
def damrollAux (sides : Int) : Nat → GenState → Int × GenState
  | 0, s => (0, s)
  | n + 1, s =>
    let r := randint1 sides s
    let rest := damrollAux sides n r.2
    (r.1 + rest.1, rest.2)

/-- Modelled from the spec: `damroll(num, sides)` (spec §4.6 `roll`)
samples `num` independent uniform draws over `[1, sides]` and returns
their sum, returning 0 when `num == 0`. -/
def damroll (num sides : Int) (s : GenState) : Int × GenState :=
  damrollAux sides num.toNat s

/-- Modelled from the spec: `damcalc` is declared in `z-rand.h` but its
body is in the absent `z-rand.c`; the spec (§4.6 `evaluate`) reduces
`num` dice of `sides` sides by aspect: Minimise gives `num`, Maximise
gives `num * sides`, Average gives `round(num * (sides + 1) / 2)` with
halves rounded up (here `(num * (sides + 1) + 1) / 2`), Extremify gives
the extreme farther from the Average with ties broken toward the
maximum, and Randomise rolls the dice.  Only Randomise consumes
generator state. -/
def damcalc (num sides : Int) (dam_aspect : aspect) (s : GenState) :
    Int × GenState :=
  match dam_aspect with
  | MINIMISE => (num, s)
  | MAXIMISE => (num * sides, s)
  | AVERAGE => ((num * (sides + 1) + 1) / 2, s)
  | EXTREMIFY =>
    let avg := (num * (sides + 1) + 1) / 2
    (if avg - num ≤ num * sides - avg then num * sides else num, s)
  | RANDOMISE => damroll num sides s

/-- Modelled from the spec: the expected value of the level-scaled bonus
curve (spec §4.7): a fraction `level / MAX_RAND_DEPTH` of `max`, with
`level` clamped so the curve is monotone and saturates once `level`
reaches the assumed maximum depth. -/
def m_bonus_expected (mx level : Int) : Int :=
  let eff :=
    if MAX_RAND_DEPTH ≤ level then MAX_RAND_DEPTH
    else if level ≤ 0 then 0 else level
  mx * eff / MAX_RAND_DEPTH

/-- Modelled from the spec: `m_bonus` is declared in `z-rand.h` but its
body is in the absent `z-rand.c`; the spec (§4.7 `bonus`) samples around
the level-scaled curve's expected value at `level` and clamps the result
into `[0, max]`. -/
def m_bonus (mx level : Int) (s : GenState) : Int × GenState :=
  let bonus := m_bonus_expected mx level
  let stand := mx / 4
  let r := Rand_div (2 * stand + 1) s
  let v := bonus + r.1 - stand
  (if v < 0 then 0 else if mx < v then mx else v, r.2)

/-- Modelled from the spec: `m_bonus_calc` is declared in `z-rand.h` but
its body is in the absent `z-rand.c`; the spec (§4.7 `bonus_evaluate`)
reduces the bonus curve, bounded to `[0, max]`, by aspect with the same
semantics as the dice calculus: Minimise and Maximise are the curve's
deterministic bounds `0` and `max`, Average is the expected value at
`level`, Extremify is the extreme farther from the Average with ties
toward the maximum, and Randomise samples via `m_bonus`. -/
def m_bonus_calc (mx level : Int) (bonus_aspect : aspect) (s : GenState) :
    Int × GenState :=
  match bonus_aspect with
  | MINIMISE => (0, s)
  | MAXIMISE => (mx, s)
  | AVERAGE => (m_bonus_expected mx level, s)
  | EXTREMIFY =>
    let avg := m_bonus_expected mx level
    (if avg - 0 ≤ mx - avg then mx else 0, s)
  | RANDOMISE => m_bonus mx level s

/-- Modelled from the spec: `randcalc` is declared in `z-rand.h` but its
body is in the absent `z-rand.c`; the spec (§4.6 `DiceSpec::evaluate`)
gives `base + evaluate(dice, sides, aspect) +
bonus_evaluate(m_bonus, level, aspect)`. -/
def randcalc (v : random_value) (level : Int) (rand_aspect : aspect)
    (s : GenState) : Int × GenState :=
  let dmg := damcalc v.dice v.sides rand_aspect s
  let bonus := m_bonus_calc v.m_bonus level rand_aspect dmg.2
  (v.base + dmg.1 + bonus.1, bonus.2)

/-- An arbitrary generator state, used where a value-level computation
needs a state although the analytic aspects never read it. -/
def initState : GenState := ⟨false, 0, ⟨0, fun _ => 0, 0, 0, 0⟩⟩

/-- Modelled from the spec: `randcalc_valid` is declared in `z-rand.h`
(taking no level parameter) but its body is in the absent `z-rand.c`; the
spec (§4.6 `is_value_possible`) tests whether `test` lies within the
closed interval between the Minimise and Maximise reductions of the
spec.  The analytic Minimise/Maximise reductions read neither the level
nor the generator state, so they are taken at level 0 on a dummy state. -/
def randcalc_valid (v : random_value) (test : Int) : Bool :=
  decide ((randcalc v 0 MINIMISE initState).1 ≤ test) &&
    decide (test ≤ (randcalc v 0 MAXIMISE initState).1)

/-! ## Character history (`player-history.c`) -/

/-- Modelled from the spec: `player-history.h` and `z-bitflag.h` are
absent, so a `bitflag type[HIST_SIZE]` array is modelled as the finite
set of switched-on flags and the `HIST_xxx` flag codes as distinct
naturals. -/
def HIST_ARTIFACT_UNKNOWN : Nat := 1

/-- Modelled from the spec: the `HIST_ARTIFACT_KNOWN` flag code from the
absent `player-history.h`. -/
def HIST_ARTIFACT_KNOWN : Nat := 2

/-- Modelled from the spec: the `HIST_ARTIFACT_LOST` flag code from the
absent `player-history.h`. -/
def HIST_ARTIFACT_LOST : Nat := 3

/-- Modelled from the spec: `hist_wipe` from the absent headers clears a
flag set. -/
def hist_wipe : List Nat := []

/-- Modelled from the spec: `hist_on` from the absent headers switches a
flag on in a flag set. -/
def hist_on (f : List Nat) (flag : Nat) : List Nat :=
  if flag ∈ f then f else flag :: f

/-- Modelled from the spec: `hist_has` from the absent headers tests a
flag in a flag set. -/
def hist_has (f : List Nat) (flag : Nat) : Bool := f.contains flag

/-- Modelled from the spec: `hist_copy` from the absent headers copies a
flag set. -/
def hist_copy (f : List Nat) : List Nat := f

/-- Modelled from the spec: the fields of `struct artifact` that
`player-history.c` reads: the artifact index `aidx`, plus the description
that `make_fake_artifact`/`object_desc` (absent sources) would render,
kept as an opaque string field. -/
structure artifact where
  aidx : Nat
  name : String
deriving DecidableEq

/-- One entry of the history list: `struct history_info` with the fields
`player-history.c` writes, in assignment order. -/
structure history_info where
  type : List Nat
  dlev : Int
  clev : Int
  a_idx : Nat
  turn : Int
  event : String
deriving DecidableEq

/-- Modelled from the spec: the fields of the global `player` that
`history_add` and `history_add_artifact` read.  `total_energy` is an
unsigned accumulator, divided by 100 to obtain the turn number. -/
structure Player where
  depth : Int
  lev : Int
  total_energy : Nat
deriving DecidableEq

/-- The mutable state of `player-history.c`: `alloc` stands for
`history_list != NULL`, `entries` holds the `history_ctr` written
entries, and `size` is `history_size` (allocated slots). -/
structure HistoryState where
  alloc : Bool
  entries : List history_info
  size : Nat
deriving DecidableEq

/-- `history_ctr`: the index of the first writable entry, i.e. the number
of written entries. -/
def history_ctr (st : HistoryState) : Nat := st.entries.length

/-- `HISTORY_MAX` from `player-history.c`. -/
def HISTORY_MAX : Nat := 5000

/-- `HISTORY_BIRTH_SIZE` from `player-history.c`. -/
def HISTORY_BIRTH_SIZE : Nat := 10

/-- The states reachable through the `player-history.c` interface: a null
list goes with zero counter and size, the counter never exceeds the
allocated size, and the allocation never exceeds `HISTORY_MAX`. -/
def HistoryState.valid (st : HistoryState) : Prop :=
  (st.alloc = false → st.entries = [] ∧ st.size = 0) ∧
    st.entries.length ≤ st.size ∧ st.size ≤ HISTORY_MAX

/-- The entry `history_add_full` writes at the current counter. -/
def newEntry (t : List Nat) (art : Option artifact) (dlev clev : Int)
    (turnno : Int) (text : String) : history_info :=
  ⟨hist_copy t, dlev, clev,
   (match art with | some a => a.aidx | none => 0), turnno, text⟩

/-- `history_add_full` from `player-history.c`: allocate
(`history_init(HISTORY_BIRTH_SIZE)`) or expand
(`history_set_num(history_size + 10)`, clamped at `HISTORY_MAX`) the list
as needed, fail if the expansion is refused, otherwise write one entry at
`history_ctr` and advance the counter. -/
def history_add_full (t : List Nat) (art : Option artifact)
    (dlev clev : Int) (turnno : Int) (text : String) (st : HistoryState) :
    Bool × HistoryState :=
  if st.alloc = false then
    (true, ⟨true, [newEntry t art dlev clev turnno text], HISTORY_BIRTH_SIZE⟩)
  else if st.entries.length = st.size then
    let num := min (st.size + 10) HISTORY_MAX
    if num ≤ st.size then (false, st)
    else (true, ⟨true, st.entries ++ [newEntry t art dlev clev turnno text],
                 num⟩)
  else
    (true, ⟨true, st.entries ++ [newEntry t art dlev clev turnno text],
            st.size⟩)

/-- `history_add` from `player-history.c`: wipe a flag set, switch on one
type flag, and append via `history_add_full` with the player's depth,
level and turn. -/
def history_add (event : String) (t : Nat) (art : Option artifact)
    (pl : Player) (st : HistoryState) : Bool × HistoryState :=
  history_add_full (hist_on hist_wipe t) art pl.depth pl.lev
    (pl.total_energy / 100) event st

/-- The downward scan shared by `history_know_artifact` and
`history_lose_artifact`: the C loop `i = history_ctr; while (i--)` walks
the entries from the last written one toward index 0 and rewrites the
first entry whose `a_idx` matches, i.e. the matching entry with the
greatest index.  Returns `none` when no entry matches. -/
def markLast (aidx : Nat) (f : history_info → history_info) :
    List history_info → Option (List history_info)
  | [] => none
  | e :: rest =>
    match markLast aidx f rest with
    | some rest' => some (e :: rest')
    | none => if e.a_idx = aidx then some (f e :: rest) else none

/-- `history_know_artifact` from `player-history.c`: wipe the type of the
most recent entry for the artifact and mark it `HIST_ARTIFACT_KNOWN`. -/
def history_know_artifact (art : artifact) (st : HistoryState) :
    Bool × HistoryState :=
  match markLast art.aidx
      (fun e => { e with type := hist_on hist_wipe HIST_ARTIFACT_KNOWN })
      st.entries with
  | some entries' => (true, { st with entries := entries' })
  | none => (false, st)

/-- `history_is_artifact_logged` from `player-history.c`: some entry not
marked `HIST_ARTIFACT_LOST` carries the artifact's index. -/
def history_is_artifact_logged (art : artifact) (st : HistoryState) : Bool :=
  st.entries.any
    (fun e => !(hist_has e.type HIST_ARTIFACT_LOST) && e.a_idx == art.aidx)

/-- `history_add_artifact` from `player-history.c`: render the "Found
%s"/"Missed %s" text, then either reveal an existing entry, or log a new
known entry, or log a new unknown (and, if not found, lost) entry; only
the branch where an unknown artifact is already logged returns FALSE. -/
def history_add_artifact (art : artifact) (known found : Bool)
    (pl : Player) (st : HistoryState) : Bool × HistoryState :=
  let buf := (if found then "Found " else "Missed ") ++ art.name
  if known then
    if history_is_artifact_logged art st then
      (true, (history_know_artifact art st).2)
    else
      (true, (history_add buf HIST_ARTIFACT_KNOWN (some art) pl st).2)
  else
    if history_is_artifact_logged art st = false then
      let t0 := hist_on hist_wipe HIST_ARTIFACT_UNKNOWN
      let t := if found then t0 else hist_on t0 HIST_ARTIFACT_LOST
      (true, (history_add_full t (some art) pl.depth pl.lev
        (pl.total_energy / 100) buf st).2)
    else (false, st)

/-- `history_lose_artifact` from `player-history.c`: mark the most recent
entry for the artifact `HIST_ARTIFACT_LOST` and return TRUE; when no
entry matches, record the artifact as missed via
`history_add_artifact(artifact, FALSE, FALSE)` and return FALSE. -/
def history_lose_artifact (art : artifact) (pl : Player)
    (st : HistoryState) : Bool × HistoryState :=
  match markLast art.aidx
      (fun e => { e with type := hist_on e.type HIST_ARTIFACT_LOST })
      st.entries with
  | some entries' => (true, { st with entries := entries' })
  | none => (false, (history_add_artifact art false false pl st).2)

/-- The entry that losing a never-logged artifact appends. -/
def missedEntry (art : artifact) (pl : Player) : history_info :=
  ⟨hist_on (hist_on hist_wipe HIST_ARTIFACT_UNKNOWN) HIST_ARTIFACT_LOST,
   pl.depth, pl.lev, art.aidx, pl.total_energy / 100,
   "Missed " ++ art.name⟩

/-- The rewrite `history_lose_artifact` applies to the entry it finds:
switch `HIST_ARTIFACT_LOST` on in its type. -/
def lostMark (e : history_info) : history_info :=
  { e with type := hist_on e.type HIST_ARTIFACT_LOST }

/-- An operation of the kind the isolation invariant speaks about:
toggling the mode flag (`Rand_quick = ...`) or drawing a value through
`Rand_div`. -/
inductive QCOp where
  | setMode : Bool → QCOp
  | draw : Int → QCOp

/-- Run one operation against the generator state. -/
def applyOp (op : QCOp) (s : GenState) : GenState :=
  match op with
  | QCOp.setMode b => { s with Rand_quick := b }
  | QCOp.draw m => (Rand_div m s).2

/-- Run a sequence of operations against the generator state. -/
def applyOps : List QCOp → GenState → GenState
  | [], s => s
  | op :: rest, s => applyOps rest (applyOp op s)

/-- The sequences the claim quantifies over: mode toggles are free, and
every draw is serviced by the Quick Generator, i.e. happens while
`Rand_quick` is set. -/
def goodSeq : List QCOp → GenState → Bool
  | [], _ => true
  | QCOp.setMode b :: rest, s => goodSeq rest { s with Rand_quick := b }
  | QCOp.draw m :: rest, s => s.Rand_quick && goodSeq rest (Rand_div m s).2

/-- The next `k` outputs of the Complex Generator for draws below `m`,
read with the mode flag forced to complex. -/
def complexSeq (m : Int) : Nat → GenState → List Int
  | 0, _ => []
  | k + 1, s =>
    let r := Rand_div m { s with Rand_quick := false }
    r.1 :: complexSeq m k r.2


/-- The entry filling the slots of the full history list used below. -/
def cexEntry : history_info := ⟨[], 0, 0, 1, 0, ""⟩

/-- A lost artifact with no history entry, used below. -/
def cexArt : artifact := ⟨2, "Ringil"⟩

/-- A player context, used below. -/
def cexPl : Player := ⟨0, 0, 0⟩

/-- A reachable history state holding `HISTORY_MAX` entries. -/
def cexFull : HistoryState :=
  ⟨true, List.replicate HISTORY_MAX cexEntry, HISTORY_MAX⟩


/-! ## Range of the uniform sampler -/

/-- For `m ≥ 1` the uniform sampler lands in `[0, m)`. -/
theorem Rand_div_range (m : Int) (s : GenState) (hm : 1 ≤ m) :
    0 ≤ (Rand_div m s).1 ∧ (Rand_div m s).1 < m := by
  unfold Rand_div
  by_cases h1 : m ≤ 1
  · simp only [h1, if_true]
    constructor
    · exact le_refl 0
    · omega
  · simp only [h1, if_false]
    have hm0 : m ≠ 0 := by omega
    have hmpos : 0 < m := by omega
    by_cases hq : s.Rand_quick
    · simp only [hq, if_true]
      exact ⟨Int.emod_nonneg _ hm0, Int.emod_lt_of_pos _ hmpos⟩
    · simp only [hq, if_false]
      exact ⟨Int.emod_nonneg _ hm0, Int.emod_lt_of_pos _ hmpos⟩

/-! ## Claims C7 and C6: the derived uniform draws -/

/-- C7: for every `M ≥ 1` and every generator state, `randint1(M)` equals
`Rand_div(M) + 1` (i.e. `randint0(M) + 1`) evaluated on that state, and
its result lies in the closed interval `[1, M]`. -/
theorem randint1_spec (m : Int) (s : GenState) (hm : 1 ≤ m) :
    (randint1 m s).1 = (Rand_div m s).1 + 1 ∧
    (randint1 m s).2 = (Rand_div m s).2 ∧
    (randint1 m s).1 = (randint0 m s).1 + 1 ∧
    (randint1 m s).2 = (randint0 m s).2 ∧
    1 ≤ (randint1 m s).1 ∧ (randint1 m s).1 ≤ m := by
  have h := Rand_div_range m s hm
  refine ⟨rfl, rfl, rfl, rfl, ?_, ?_⟩ <;>
    simp only [randint1] <;> omega

/-- Witness for C7 at `M = 6` on a concrete state. -/
theorem randint1_spec_witness :
    (1 : Int) ≤ 6 ∧
    (1 ≤ (randint1 6 initState).1 ∧ (randint1 6 initState).1 ≤ 6) := by
  refine ⟨by norm_num, ?_⟩
  have h := randint1_spec 6 initState (by norm_num)
  exact ⟨h.2.2.2.2.1, h.2.2.2.2.2⟩

/-- C6: for every `A`, every `D ≥ 0` and every generator state,
`rand_spread(A, D)` equals `A + Rand_div(2D + 1) - D` evaluated on that
state, coincides with `rand_range(A - D, A + D)` on that state, and its
result lies in `[A - D, A + D]`. -/
theorem rand_spread_spec (a d : Int) (s : GenState) (hd : 0 ≤ d) :
    (rand_spread a d s).1 = a + (Rand_div (2 * d + 1) s).1 - d ∧
    (rand_spread a d s).2 = (Rand_div (2 * d + 1) s).2 ∧
    (rand_spread a d s).1 = (rand_range (a - d) (a + d) s).1 ∧
    (rand_spread a d s).2 = (rand_range (a - d) (a + d) s).2 ∧
    a - d ≤ (rand_spread a d s).1 ∧ (rand_spread a d s).1 ≤ a + d := by
  have harg : 1 + d + d = 2 * d + 1 := by ring
  have harg2 : a + d - (a - d) + 1 = 2 * d + 1 := by ring
  have hrange := Rand_div_range (2 * d + 1) s (by omega)
  simp only [rand_spread, rand_range, randint0, harg, harg2]
  refine ⟨?_, ?_, ?_, ?_, ?_, ?_⟩ <;> first | trivial | omega

/-- Witness for C6 at `A = 10`, `D = 3` on a concrete state. -/
theorem rand_spread_spec_witness :
    (0 : Int) ≤ 3 ∧
    ((10 : Int) - 3 ≤ (rand_spread 10 3 initState).1 ∧
      (rand_spread 10 3 initState).1 ≤ 10 + 3) := by
  refine ⟨by norm_num, ?_⟩
  have h := rand_spread_spec 10 3 initState (by norm_num)
  exact ⟨h.2.2.2.2.1, h.2.2.2.2.2⟩

/-! ## Claims C2, C8 and C3: the dice calculus -/

/-- C2: for every `n ≥ 0` and `s ≥ 1`, the analytic reductions satisfy
`damcalc(n, s, MINIMISE) = n`, `damcalc(n, s, MAXIMISE) = n * s`, and
`damcalc(n, s, AVERAGE)` is the half-up rounding of `n * (s + 1) / 2`,
i.e. the unique integer `a` with `n * (s + 1) ≤ 2 * a ≤ n * (s + 1) + 1`;
none of the three reductions consumes any generator state. -/
theorem damcalc_analytic (n s : Int) (st : GenState) (hn : 0 ≤ n)
    (hs : 1 ≤ s) :
    (damcalc n s MINIMISE st).1 = n ∧
    (damcalc n s MAXIMISE st).1 = n * s ∧
    (n * (s + 1) ≤ 2 * (damcalc n s AVERAGE st).1 ∧
      2 * (damcalc n s AVERAGE st).1 ≤ n * (s + 1) + 1) ∧
    (damcalc n s MINIMISE st).2 = st ∧
    (damcalc n s MAXIMISE st).2 = st ∧
    (damcalc n s AVERAGE st).2 = st := by
  refine ⟨rfl, rfl, ?_, rfl, rfl, rfl⟩
  have hk : 0 ≤ n * (s + 1) := mul_nonneg hn (by omega)
  simp only [damcalc]
  omega

/-- Witness for C2 at `n = 3`, `s = 6` on a concrete state. -/
theorem damcalc_analytic_witness :
    ((0 : Int) ≤ 3 ∧ (1 : Int) ≤ 6) ∧
    ((damcalc 3 6 MINIMISE initState).1 = 3 ∧
      (damcalc 3 6 MAXIMISE initState).1 = 3 * 6 ∧
      (3 * (6 + 1) ≤ 2 * (damcalc 3 6 AVERAGE initState).1 ∧
        2 * (damcalc 3 6 AVERAGE initState).1 ≤ 3 * (6 + 1) + 1) ∧
      (damcalc 3 6 MINIMISE initState).2 = initState ∧
      (damcalc 3 6 MAXIMISE initState).2 = initState ∧
      (damcalc 3 6 AVERAGE initState).2 = initState) :=
  ⟨⟨by norm_num, by norm_num⟩,
   damcalc_analytic 3 6 initState (by norm_num) (by norm_num)⟩

/-- C8: for every `n ≥ 0` and `s ≥ 1`, `damcalc(n, s, EXTREMIFY)` returns
the MAXIMISE value when `n * s - average ≥ average - n` (with `average`
the AVERAGE reduction) and the MINIMISE value otherwise, ties going to
the maximum; it consumes no generator state. -/
theorem damcalc_extremify (n s : Int) (st : GenState) (_hn : 0 ≤ n)
    (_hs : 1 ≤ s) :
    (damcalc n s EXTREMIFY st).1 =
      (if (damcalc n s AVERAGE st).1 - (damcalc n s MINIMISE st).1 ≤
          (damcalc n s MAXIMISE st).1 - (damcalc n s AVERAGE st).1
       then (damcalc n s MAXIMISE st).1
       else (damcalc n s MINIMISE st).1) ∧
    (damcalc n s EXTREMIFY st).2 = st := by
  exact ⟨rfl, rfl⟩

/-- Witness for C8 at `n = 2`, `s = 5` on a concrete state. -/
theorem damcalc_extremify_witness :
    ((0 : Int) ≤ 2 ∧ (1 : Int) ≤ 5) ∧
    (damcalc 2 5 EXTREMIFY initState).1 =
      (if (damcalc 2 5 AVERAGE initState).1 - (damcalc 2 5 MINIMISE initState).1 ≤
          (damcalc 2 5 MAXIMISE initState).1 - (damcalc 2 5 AVERAGE initState).1
       then (damcalc 2 5 MAXIMISE initState).1
       else (damcalc 2 5 MINIMISE initState).1) :=
  ⟨⟨by norm_num, by norm_num⟩,
   (damcalc_extremify 2 5 initState (by norm_num) (by norm_num)).1⟩

/-- Each single die lands in `[1, sides]` and rolling `k` dice sums `k`
such draws, so the sum lands in `[k, k * sides]`. -/
theorem damrollAux_range (sides : Int) (hs : 1 ≤ sides) :
    ∀ (k : Nat) (st : GenState),
      (k : Int) ≤ (damrollAux sides k st).1 ∧
        (damrollAux sides k st).1 ≤ (k : Int) * sides := by
  intro k
  induction k with
  | zero => intro st; simp [damrollAux]
  | succ n ih =>
    intro st
    have hdie := Rand_div_range sides st hs
    have hrest := ih (randint1 sides st).2
    simp only [damrollAux, randint1] at hrest ⊢
    push_cast
    constructor
    · nlinarith [hrest.1, hrest.2, hdie.1, hdie.2]
    · nlinarith [hrest.1, hrest.2, hdie.1, hdie.2]

/-- C3: `damroll(0, s)` returns 0 for every `s` and every state; and for
`n ≥ 1`, `s ≥ 1` the value of `damroll(n, s)` lies in `[n, n * s]` on
every generator state. -/
theorem damroll_range :
    (∀ (s : Int) (st : GenState), (damroll 0 s st).1 = 0) ∧
    (∀ (n s : Int) (st : GenState), 1 ≤ n → 1 ≤ s →
      n ≤ (damroll n s st).1 ∧ (damroll n s st).1 ≤ n * s) := by
  constructor
  · intro s st
    simp [damroll, damrollAux]
  · intro n s st hn hs
    have h := damrollAux_range s hs n.toNat st
    have hcast : ((n.toNat : Int)) = n := Int.toNat_of_nonneg (by omega)
    rw [hcast] at h
    exact ⟨h.1, h.2⟩

/-- Witness for C3 at `n = 2`, `s = 6` on a concrete state. -/
theorem damroll_range_witness :
    ((1 : Int) ≤ 2 ∧ (1 : Int) ≤ 6) ∧
    (2 ≤ (damroll 2 6 initState).1 ∧ (damroll 2 6 initState).1 ≤ 2 * 6) :=
  ⟨⟨by norm_num, by norm_num⟩,
   damroll_range.2 2 6 initState (by norm_num) (by norm_num)⟩

/-! ## Claims C5 and C1: bonus calculus and range validity -/

/-- C5: for every `max ≥ 0` and every level, `m_bonus(max, level)` lands
in `[0, max]` on every generator state; the expected value of the bonus
curve is monotonically non-decreasing in the level; and the curve
saturates once the level reaches the assumed maximum depth, the constant
`MAX_RAND_DEPTH = 128`. -/
theorem m_bonus_spec (mx level : Int) (st : GenState) (hmx : 0 ≤ mx) :
    (0 ≤ (m_bonus mx level st).1 ∧ (m_bonus mx level st).1 ≤ mx) ∧
    (∀ l1 l2 : Int, l1 ≤ l2 →
      m_bonus_expected mx l1 ≤ m_bonus_expected mx l2) ∧
    (MAX_RAND_DEPTH ≤ level →
      m_bonus_expected mx level = m_bonus_expected mx MAX_RAND_DEPTH) ∧
    MAX_RAND_DEPTH = 128 := by
  refine ⟨?_, ?_, ?_, rfl⟩
  · simp only [m_bonus]
    split
    · omega
    · split <;> omega
  · intro l1 l2 h12
    simp only [m_bonus_expected, MAX_RAND_DEPTH]
    have heff : (if (128 : Int) ≤ l1 then (128 : Int)
          else if l1 ≤ 0 then 0 else l1) ≤
        (if (128 : Int) ≤ l2 then (128 : Int)
          else if l2 ≤ 0 then 0 else l2) := by
      split <;> split <;> omega
    have hmul : mx * (if (128 : Int) ≤ l1 then (128 : Int)
          else if l1 ≤ 0 then 0 else l1) ≤
        mx * (if (128 : Int) ≤ l2 then (128 : Int)
          else if l2 ≤ 0 then 0 else l2) :=
      mul_le_mul_of_nonneg_left heff hmx
    omega
  · intro hlev
    simp only [m_bonus_expected, MAX_RAND_DEPTH] at hlev ⊢
    rw [if_pos hlev, if_pos (le_refl (128 : Int))]

/-- Witness for C5 at `max = 4`, `level = 200` on a concrete state. -/
theorem m_bonus_spec_witness :
    (0 : Int) ≤ 4 ∧
    ((0 ≤ (m_bonus 4 200 initState).1 ∧ (m_bonus 4 200 initState).1 ≤ 4) ∧
      (MAX_RAND_DEPTH ≤ 200 →
        m_bonus_expected 4 200 = m_bonus_expected 4 MAX_RAND_DEPTH)) := by
  refine ⟨by norm_num, ?_⟩
  have h := m_bonus_spec 4 200 initState (by norm_num)
  exact ⟨h.1, h.2.2.1⟩

/-- C1: for every `random_value`, every level and every `test`,
`randcalc_valid(v, test)` is true exactly when `test` lies in the closed
interval between the Minimise and Maximise reductions of `v` at that
level (the analytic reductions read neither the level nor the generator
state, so the level-less C prototype decides the property at every
level). -/
theorem randcalc_valid_iff (v : random_value) (level test : Int)
    (st : GenState) :
    randcalc_valid v test = true ↔
      ((randcalc v level MINIMISE st).1 ≤ test ∧
        test ≤ (randcalc v level MAXIMISE st).1) := by
  simp only [randcalc_valid, randcalc, damcalc, m_bonus_calc,
    Bool.and_eq_true, decide_eq_true_eq]

/-! ## Claim C4: quick/complex generator isolation -/

/-- A draw serviced while the quick flag is set leaves the complex part
of the state untouched. -/
theorem complexPart_quick_draw (m : Int) (s : GenState)
    (hq : s.Rand_quick = true) :
    complexPart (Rand_div m s).2 = complexPart s := by
  unfold Rand_div
  split
  · rfl
  · rw [hq]
    rfl

/-- Toggling the mode flag touches neither generator's state. -/
theorem setMode_frame (b : Bool) (s : GenState) :
    complexPart { s with Rand_quick := b } = complexPart s ∧
      (GenState.Rand_value { s with Rand_quick := b }) = s.Rand_value :=
  ⟨rfl, rfl⟩

/-- Any sequence of mode toggles and quick-serviced draws preserves the
complex part of the state. -/
theorem complexPart_goodSeq :
    ∀ (ops : List QCOp) (s : GenState), goodSeq ops s = true →
      complexPart (applyOps ops s) = complexPart s := by
  intro ops
  induction ops with
  | nil => intro s _; rfl
  | cons op rest ih =>
    intro s hgood
    cases op with
    | setMode b =>
      simp only [goodSeq] at hgood
      simp only [applyOps, applyOp]
      exact (ih _ hgood).trans (setMode_frame b s).1
    | draw m =>
      simp only [goodSeq, Bool.and_eq_true] at hgood
      simp only [applyOps, applyOp]
      exact (ih _ hgood.2).trans (complexPart_quick_draw m s hgood.1)

/-- The complex output stream is a function of the complex part alone. -/
theorem complexSeq_congr (m : Int) :
    ∀ (k : Nat) (s t : GenState), complexPart s = complexPart t →
      complexSeq m k s = complexSeq m k t := by
  intro k
  induction k with
  | zero => intro s t _; rfl
  | succ n ih =>
    intro s t h
    have hwell : s.well = t.well := h
    simp only [complexSeq, Rand_div]
    split
    · exact congrArg (List.cons 0) (ih _ _ h)
    · simp only [hwell]
      exact congrArg (List.cons _) (ih _ _ rfl)

/-- A draw serviced while the quick flag is clear leaves the Quick
Generator's one-word state untouched. -/
theorem quick_state_complex_draw (m : Int) (s : GenState)
    (hq : s.Rand_quick = false) :
    (Rand_div m s).2.Rand_value = s.Rand_value := by
  unfold Rand_div
  split
  · rfl
  · rw [hq]
    rfl

/-- C4: toggling the quick/complex mode flag and drawing any number of
values from the Quick Generator leaves the Complex Generator's state
(`state_i`, `STATE[0..31]`, `z0`, `z1`, `z2`, collected in `complexPart`)
unchanged, so every subsequent Complex Generator output sequence is what
it would have been without those operations; symmetrically, toggling
touches neither state and a complex-serviced draw leaves the Quick
Generator's `Rand_value` untouched. -/
theorem quick_complex_isolation (ops : List QCOp) (s : GenState)
    (hgood : goodSeq ops s = true) :
    complexPart (applyOps ops s) = complexPart s ∧
    (∀ (m : Int) (k : Nat),
      complexSeq m k (applyOps ops s) = complexSeq m k s) ∧
    (∀ b : Bool,
      complexPart { s with Rand_quick := b } = complexPart s ∧
        (GenState.Rand_value { s with Rand_quick := b }) = s.Rand_value) ∧
    (∀ m : Int, s.Rand_quick = false →
      (Rand_div m s).2.Rand_value = s.Rand_value) := by
  have hpart := complexPart_goodSeq ops s hgood
  refine ⟨hpart, ?_, fun b => setMode_frame b s, fun m => quick_state_complex_draw m s⟩
  intro m k
  exact complexSeq_congr m k _ _ hpart

/-- Witness for C4: a concrete interleaving of toggles and quick draws on
a concrete state. -/
theorem quick_complex_isolation_witness :
    goodSeq [QCOp.setMode true, QCOp.draw 6, QCOp.draw 100,
        QCOp.setMode false, QCOp.setMode true, QCOp.draw 20]
      ⟨true, 12345, ⟨0, fun _ => 0, 0, 0, 0⟩⟩ = true ∧
    complexPart (applyOps [QCOp.setMode true, QCOp.draw 6, QCOp.draw 100,
        QCOp.setMode false, QCOp.setMode true, QCOp.draw 20]
      ⟨true, 12345, ⟨0, fun _ => 0, 0, 0, 0⟩⟩) =
      complexPart ⟨true, 12345, ⟨0, fun _ => 0, 0, 0, 0⟩⟩ := by
  refine ⟨by decide, ?_⟩
  exact (quick_complex_isolation _ _ (by decide)).1

/-! ## Claims C9 and C10: the history list -/

/-- The downward scan finds nothing exactly when no entry carries the
artifact index. -/
theorem markLast_eq_none_iff (aidx : Nat) (f : history_info → history_info) :
    ∀ l : List history_info,
      markLast aidx f l = none ↔ ∀ e ∈ l, e.a_idx ≠ aidx := by
  intro l
  induction l with
  | nil => simp [markLast]
  | cons e rest ih =>
    simp only [markLast]
    cases hm : markLast aidx f rest with
    | some rest2 =>
      simp only [List.mem_cons]
      constructor
      · intro h; exact absurd h (by simp)
      · intro h
        have h2 : markLast aidx f rest = none :=
          ih.mpr (fun x hx => h x (Or.inr hx))
        rw [hm] at h2
        exact Option.noConfusion h2
    | none =>
      by_cases he : e.a_idx = aidx
      · simp only [if_pos he, List.mem_cons]
        constructor
        · intro h; exact absurd h (by simp)
        · intro h; exact absurd he (h e (Or.inl rfl))
      · simp only [if_neg he, List.mem_cons]
        constructor
        · intro _ x hx
          rcases hx with hx | hx
          · rw [hx]; exact he
          · exact (ih.mp hm) x hx
        · intro _; trivial

/-- When the downward scan succeeds it rewrites exactly the matching
entry with the greatest index and keeps every other entry in place. -/
theorem markLast_eq_some (aidx : Nat) (f : history_info → history_info) :
    ∀ (l l2 : List history_info), markLast aidx f l = some l2 →
      ∃ j, ∃ h : j < l.length,
        (l.get ⟨j, h⟩).a_idx = aidx ∧
        (∀ k, ∀ hk : k < l.length, j < k → (l.get ⟨k, hk⟩).a_idx ≠ aidx) ∧
        l2 = l.set j (f (l.get ⟨j, h⟩)) := by
  intro l
  induction l with
  | nil => intro l2 h; exact absurd h (by simp [markLast])
  | cons e rest ih =>
    intro l2 hsome
    simp only [markLast] at hsome
    cases hm : markLast aidx f rest with
    | some rest2 =>
      rw [hm] at hsome
      simp only [Option.some.injEq] at hsome
      obtain ⟨j, h, hja, hafter, hset⟩ := ih rest2 hm
      refine ⟨j + 1, by simp; omega, ?_, ?_, ?_⟩
      · simpa using hja
      · intro k hk hjk
        match k, hk with
        | k + 1, hk =>
          have hk2 : k < rest.length := by simp at hk; omega
          have := hafter k hk2 (by omega)
          simpa using this
      · rw [← hsome, hset]
        simp
    | none =>
      rw [hm] at hsome
      by_cases he : e.a_idx = aidx
      · rw [if_pos he] at hsome
        simp only [Option.some.injEq] at hsome
        refine ⟨0, by simp, by simpa using he, ?_, ?_⟩
        · intro k hk hjk
          match k, hk with
          | k + 1, hk =>
            have hk2 : k < rest.length := by simp at hk; omega
            have hmem : rest.get ⟨k, hk2⟩ ∈ rest := List.get_mem _ _ _
            have := (markLast_eq_none_iff aidx f rest).mp hm _ hmem
            simpa using this
        · rw [← hsome]
          simp
      · rw [if_neg he] at hsome
        exact absurd hsome (by simp)

/-- Case analysis of `history_add_full` on a reachable state: at the hard
cap it fails and leaves everything in place, otherwise it appends the new
entry after the existing ones. -/
theorem history_add_full_cases (t : List Nat) (art : Option artifact)
    (dlev clev : Int) (turnno : Int) (text : String) (st : HistoryState)
    (hv : st.valid) :
    (history_ctr st = HISTORY_MAX ∧ st.size = HISTORY_MAX →
      history_add_full t art dlev clev turnno text st = (false, st)) ∧
    (¬(history_ctr st = HISTORY_MAX ∧ st.size = HISTORY_MAX) →
      (history_add_full t art dlev clev turnno text st).1 = true ∧
      (history_add_full t art dlev clev turnno text st).2.entries =
        st.entries ++ [newEntry t art dlev clev turnno text]) := by
  obtain ⟨hnull, hle, hcap⟩ := hv
  unfold history_ctr at *
  by_cases halloc : st.alloc = false
  · obtain ⟨hent, _⟩ := hnull halloc
    constructor
    · intro hfull
      rw [hent] at hfull
      simp [HISTORY_MAX] at hfull
    · intro _
      simp only [history_add_full, if_pos halloc]
      rw [hent]
      refine ⟨?_, ?_⟩ <;> trivial
  · constructor
    · intro hfull
      obtain ⟨hf1, hf2⟩ := hfull
      have hM : HISTORY_MAX = 5000 := rfl
      simp only [history_add_full, if_neg halloc]
      rw [if_pos (hf1.trans hf2.symm)]
      rw [if_pos (by omega)]
    · intro hnotfull
      by_cases hgrow : st.entries.length = st.size
      · have hlt : st.size < HISTORY_MAX := by
          rcases Nat.lt_or_ge st.size HISTORY_MAX with h | h
          · exact h
          · exact absurd ⟨by omega, by omega⟩ hnotfull
        have hM : HISTORY_MAX = 5000 := rfl
        simp only [history_add_full, if_neg halloc, if_pos hgrow]
        rw [if_neg (by omega)]
        refine ⟨?_, ?_⟩ <;> trivial
      · simp only [history_add_full, if_neg halloc, if_neg hgrow]
        refine ⟨?_, ?_⟩ <;> trivial

/-- C9: on any reachable history state, when the list already holds
`HISTORY_MAX` (5000) entries (`history_ctr = history_size = 5000`),
`history_add_full` returns FALSE and leaves the state — counter, size and
every stored entry — unchanged; in every other case it appends exactly
one entry at index `history_ctr`, increments `history_ctr` by one, keeps
every previously stored entry, and returns TRUE. -/
theorem history_add_full_spec (t : List Nat) (art : Option artifact)
    (dlev clev : Int) (turnno : Int) (text : String) (st : HistoryState)
    (hv : st.valid) :
    (history_ctr st = HISTORY_MAX ∧ st.size = HISTORY_MAX →
      history_add_full t art dlev clev turnno text st = (false, st)) ∧
    (¬(history_ctr st = HISTORY_MAX ∧ st.size = HISTORY_MAX) →
      (history_add_full t art dlev clev turnno text st).1 = true ∧
      (history_add_full t art dlev clev turnno text st).2.entries =
        st.entries ++ [newEntry t art dlev clev turnno text] ∧
      history_ctr (history_add_full t art dlev clev turnno text st).2 =
        history_ctr st + 1) := by
  have h := history_add_full_cases t art dlev clev turnno text st hv
  refine ⟨h.1, ?_⟩
  intro hnotfull
  obtain ⟨h1, h2⟩ := h.2 hnotfull
  refine ⟨h1, h2, ?_⟩
  unfold history_ctr
  rw [h2]
  simp

/-- Witness for C9: a non-full concrete state, on which `history_add_full`
appends and reports TRUE. -/
theorem history_add_full_spec_witness :
    HistoryState.valid ⟨true, [⟨[], 1, 1, 0, 0, "born"⟩], 10⟩ ∧
    ¬(history_ctr ⟨true, [⟨[], 1, 1, 0, 0, "born"⟩], 10⟩ = HISTORY_MAX ∧
        HistoryState.size ⟨true, [⟨[], 1, 1, 0, 0, "born"⟩], 10⟩ =
          HISTORY_MAX) ∧
    ((history_add_full [] none 2 3 4 "slew a kobold"
        ⟨true, [⟨[], 1, 1, 0, 0, "born"⟩], 10⟩).1 = true ∧
      (history_add_full [] none 2 3 4 "slew a kobold"
        ⟨true, [⟨[], 1, 1, 0, 0, "born"⟩], 10⟩).2.entries =
        [⟨[], 1, 1, 0, 0, "born"⟩] ++ [newEntry [] none 2 3 4 "slew a kobold"] ∧
      history_ctr (history_add_full [] none 2 3 4 "slew a kobold"
        ⟨true, [⟨[], 1, 1, 0, 0, "born"⟩], 10⟩).2 =
        history_ctr ⟨true, [⟨[], 1, 1, 0, 0, "born"⟩], 10⟩ + 1) := by
  refine ⟨?_, ?_, ?_⟩
  · exact ⟨by simp, by simp, by simp [HISTORY_MAX]⟩
  · simp [history_ctr, HISTORY_MAX]
  · exact (history_add_full_spec [] none 2 3 4 "slew a kobold"
      ⟨true, [⟨[], 1, 1, 0, 0, "born"⟩], 10⟩
      ⟨by simp, by simp, by simp [HISTORY_MAX]⟩).2
      (by simp [history_ctr, HISTORY_MAX])

/-- When no entry carries the artifact index, the artifact is not logged
either. -/
theorem logged_false_of_no_match (art : artifact) (st : HistoryState)
    (h : ∀ e ∈ st.entries, e.a_idx ≠ art.aidx) :
    history_is_artifact_logged art st = false := by
  unfold history_is_artifact_logged
  rw [List.any_eq_false]
  intro e he
  simp only [Bool.and_eq_true, beq_iff_eq, not_and]
  intro _
  exact h e he

/-- The FALSE branch of `history_lose_artifact`: with no matching entry
it reports FALSE and routes through `history_add_artifact`, which appends
the "Missed" entry unless the list is already at the hard cap, in which
case everything stays in place. -/
theorem lose_false_state (art : artifact) (pl : Player) (st : HistoryState)
    (hv : st.valid)
    (hnone : markLast art.aidx
      (fun e => { e with type := hist_on e.type HIST_ARTIFACT_LOST })
      st.entries = none) :
    (history_lose_artifact art pl st).1 = false ∧
    (history_ctr st = HISTORY_MAX ∧ st.size = HISTORY_MAX →
      (history_lose_artifact art pl st).2 = st) ∧
    (¬(history_ctr st = HISTORY_MAX ∧ st.size = HISTORY_MAX) →
      (history_lose_artifact art pl st).2.entries =
        st.entries ++ [missedEntry art pl]) := by
  have hnomatch := (markLast_eq_none_iff _ _ _).mp hnone
  have hlog := logged_false_of_no_match art st hnomatch
  have hlose : history_lose_artifact art pl st =
      (false, (history_add_artifact art false false pl st).2) := by
    unfold history_lose_artifact
    rw [hnone]
  have hstate : (history_add_artifact art false false pl st).2 =
      (history_add_full
        (hist_on (hist_on hist_wipe HIST_ARTIFACT_UNKNOWN)
          HIST_ARTIFACT_LOST)
        (some art) pl.depth pl.lev (pl.total_energy / 100)
        ("Missed " ++ art.name) st).2 := by
    simp [history_add_artifact, hlog]
  have hcases := history_add_full_cases
    (hist_on (hist_on hist_wipe HIST_ARTIFACT_UNKNOWN) HIST_ARTIFACT_LOST)
    (some art) pl.depth pl.lev (pl.total_energy / 100)
    ("Missed " ++ art.name) st hv
  refine ⟨by rw [hlose], ?_, ?_⟩
  · intro hfull
    rw [hlose]
    show (history_add_artifact art false false pl st).2 = st
    rw [hstate, hcases.1 hfull]
  · intro hfull
    rw [hlose]
    show (history_add_artifact art false false pl st).2.entries =
      st.entries ++ [missedEntry art pl]
    rw [hstate, (hcases.2 hfull).2]
    rfl

/-- C10 counterexample: on a full history (5000 entries) holding no entry
for the artifact, `history_lose_artifact` returns FALSE and the history
is left completely unchanged — no "Missed" entry is appended, refuting
the claim that a FALSE return always mutates the history. -/
theorem history_lose_artifact_full_cex :
    (history_lose_artifact cexArt cexPl cexFull).1 = false ∧
    (history_lose_artifact cexArt cexPl cexFull).2 = cexFull := by
  have hnomatch : ∀ e ∈ cexFull.entries, e.a_idx ≠ cexArt.aidx := by
    intro e he
    have he2 : e = cexEntry := List.eq_of_mem_replicate he
    rw [he2]
    decide
  have hlen : cexFull.entries.length = HISTORY_MAX :=
    List.length_replicate HISTORY_MAX cexEntry
  have hv : cexFull.valid := by
    refine ⟨fun hfalse => absurd hfalse (by simp [cexFull]), ?_, le_refl _⟩
    rw [hlen]
    exact le_refl _
  have hnone := (markLast_eq_none_iff cexArt.aidx
    (fun e => { e with type := hist_on e.type HIST_ARTIFACT_LOST })
    cexFull.entries).mpr hnomatch
  have h := lose_false_state cexArt cexPl cexFull hv hnone
  refine ⟨h.1, ?_⟩
  have hfull : history_ctr cexFull = HISTORY_MAX ∧
      cexFull.size = HISTORY_MAX := ⟨hlen, rfl⟩
  exact h.2.1 hfull

/-- C10 amended: `history_lose_artifact` returns TRUE iff some existing
entry's `a_idx` equals the artifact's `aidx`, in which case it only marks
the most recent such entry `HIST_ARTIFACT_LOST`; when it returns FALSE it
routes through `history_add_artifact`, which appends a new "Missed" entry
for the artifact — unless the history already holds `HISTORY_MAX` (5000)
entries, in which case the failed append leaves the history unchanged. -/
theorem history_lose_artifact_amended (art : artifact) (pl : Player)
    (st : HistoryState) (hv : st.valid) :
    ((history_lose_artifact art pl st).1 = true ↔
      ∃ e ∈ st.entries, e.a_idx = art.aidx) ∧
    ((history_lose_artifact art pl st).1 = true →
      ∃ j, ∃ h : j < st.entries.length,
        (st.entries.get ⟨j, h⟩).a_idx = art.aidx ∧
        (∀ k, ∀ hk : k < st.entries.length, j < k →
          (st.entries.get ⟨k, hk⟩).a_idx ≠ art.aidx) ∧
        (history_lose_artifact art pl st).2 =
          { st with entries :=
              st.entries.set j (lostMark (st.entries.get ⟨j, h⟩)) }) ∧
    ((history_lose_artifact art pl st).1 = false →
      (history_ctr st = HISTORY_MAX ∧ st.size = HISTORY_MAX →
        (history_lose_artifact art pl st).2 = st) ∧
      (¬(history_ctr st = HISTORY_MAX ∧ st.size = HISTORY_MAX) →
        (history_lose_artifact art pl st).2.entries =
          st.entries ++ [missedEntry art pl])) := by
  cases hm : markLast art.aidx
      (fun e => { e with type := hist_on e.type HIST_ARTIFACT_LOST })
      st.entries with
  | none =>
    have h := lose_false_state art pl st hv hm
    refine ⟨?_, ?_, fun _ => h.2⟩
    · rw [h.1]
      simp only [Bool.false_eq_true, false_iff]
      rintro ⟨e, he, hae⟩
      exact (markLast_eq_none_iff _ _ _).mp hm e he hae
    · intro htrue
      rw [h.1] at htrue
      exact absurd htrue (by simp)
  | some l2 =>
    have hlose : history_lose_artifact art pl st =
        (true, { st with entries := l2 }) := by
      unfold history_lose_artifact
      rw [hm]
    obtain ⟨j, h, hja, hafter, hset⟩ := markLast_eq_some _ _ _ _ hm
    refine ⟨?_, ?_, ?_⟩
    · rw [hlose]
      simp only [true_iff]
      exact ⟨st.entries.get ⟨j, h⟩, List.get_mem _ _ _, hja⟩
    · intro _
      refine ⟨j, h, hja, hafter, ?_⟩
      rw [hlose, hset]
      rfl
    · intro hfalse
      rw [hlose] at hfalse
      exact absurd hfalse (by simp)

/-- Witness for the amended C10 on a small state holding one matching
entry. -/
theorem history_lose_artifact_amended_witness :
    HistoryState.valid ⟨true, [⟨[], 0, 0, 7, 0, "Found Sting"⟩], 10⟩ ∧
    ((history_lose_artifact ⟨7, "Sting"⟩ ⟨0, 0, 0⟩
        ⟨true, [⟨[], 0, 0, 7, 0, "Found Sting"⟩], 10⟩).1 = true ↔
      ∃ e ∈ HistoryState.entries ⟨true, [⟨[], 0, 0, 7, 0, "Found Sting"⟩], 10⟩,
        e.a_idx = artifact.aidx ⟨7, "Sting"⟩) := by
  refine ⟨⟨by simp, by simp, by norm_num [HISTORY_MAX]⟩, ?_⟩
  exact (history_lose_artifact_amended ⟨7, "Sting"⟩ ⟨0, 0, 0⟩
    ⟨true, [⟨[], 0, 0, 7, 0, "Found Sting"⟩], 10⟩
    ⟨by simp, by simp, by norm_num [HISTORY_MAX]⟩).1
